import Mathlib

/-!
# Verification of the `np` numeric-vector library (`src/vector.rs`)

Shallow embedding of the `Vector<T>` container and its operations.
Each Lean definition mirrors one Rust item from `src/vector.rs`:

* `Vector α` mirrors `struct Vector<T> { elements: Vec<T> }`;
* panics are modelled as `Except NpError` results (for the guarded
  operations) or `Option` results (for `max`/`min`, whose Rust bodies
  call `.unwrap()` on an iterator `Option`);
* the element type of the sequence builders `range`/`linspace` is `ℚ`,
  the exact stand-in for the `Num`/`Float` parameters of the source
  (all concrete examples used below are exactly representable, so the
  rational results coincide with the binary floating results);
* the `while current_step < stop` loops of `range`/`linspace` are
  modelled with an explicit fuel that dominates the iteration count for
  every positive step; `rangeLoop_closed_form` shows the result is
  independent of the fuel once the fuel is sufficient, i.e. it is the
  value the unbounded loop computes.
-/

set_option linter.unusedVariables false

deriving instance DecidableEq for Except

namespace Crabsformer

/-- The failure taxonomy of the library: the three panic sites of
`src/vector.rs` (invalid interval in `range`/`linspace`, length mismatch
in the vector-vector operators, out-of-bounds in `slice`). -/
inductive NpError where
  | invalidInterval (start stop : ℚ)
  | lengthMismatch (left right : Nat)
  | outOfBounds
deriving Repr, DecidableEq

/-- Rust `struct Vector<T> { elements: Vec<T> }` -/
structure Vector (α : Type) where
  elements : List α
deriving Repr, DecidableEq

namespace Vector

/-- Rust `pub fn len(&self) -> usize { self.elements.len() }` -/
def len {α : Type} (v : Vector α) : Nat :=
  v.elements.length

/-- Rust `pub fn full(len, value) { let elements = vec![value; len]; Vector { elements } }` -/
def full {α : Type} (len : Nat) (value : α) : Vector α :=
  ⟨List.replicate len value⟩

/-- Rust `pub fn zeros(len) { Self::full(len, T::from_i32(0).unwrap()) }` -/
def zeros {α : Type} [Zero α] (len : Nat) : Vector α :=
  full len 0

/-- Rust `pub fn ones(len) { Self::full(len, T::from_i32(1).unwrap()) }` -/
def ones {α : Type} [One α] (len : Nat) : Vector α :=
  full len 1

/-- The shared loop body of `range` and `linspace`:
`while current_step < stop { elements.push(current_step); current_step += step; }`,
with explicit fuel bounding the number of condition checks. -/
def rangeLoop (stop step : ℚ) : Nat → ℚ → List ℚ
  | 0, _ => []
  | fuel + 1, current =>
    if current < stop then current :: rangeLoop stop step fuel (current + step)
    else []

/-- Fuel sufficient for `rangeLoop` whenever `step > 0`: it dominates
`⌈(stop - start) / step⌉`, the number of values of `start + i * step`
lying below `stop` (see `rangeFuel_sufficient`). -/
def rangeFuel (start stop step : ℚ) : Nat :=
  ((stop - start) / step).num.toNat + 1

/-- Rust `pub fn range(start, stop, step)`: panics (modelled as
`NpError.invalidInterval`) when `start >= stop`, otherwise accumulates
by repeated addition of `step` while below `stop`. -/
def range (start stop step : ℚ) : Except NpError (Vector ℚ) :=
  if start ≥ stop then .error (.invalidInterval start stop)
  else .ok ⟨rangeLoop stop step (rangeFuel start stop step) start⟩

/-- Rust `pub fn linspace(len, start, stop)`: panics (modelled as
`NpError.invalidInterval`) when `start >= stop`; otherwise runs the same
accumulation loop with `step = (stop - start) / (len - 1)` and then
force-corrects the endpoint: overwrite the last slot if the loop made
exactly `len` elements, else push `stop`. -/
def linspace (len : Nat) (start stop : ℚ) : Except NpError (Vector ℚ) :=
  if start ≥ stop then .error (.invalidInterval start stop)
  else
    let divisor : ℚ := (len : ℚ)
    let step : ℚ := (stop - start) / (divisor - 1)
    let elements := rangeLoop stop step (rangeFuel start stop step) start
    if elements.length = len then .ok ⟨elements.set (len - 1) stop⟩
    else .ok ⟨elements ++ [stop]⟩

/-- Rust `impl ops::Add<Vector<T>> for Vector<T>`: panics (modelled as
`NpError.lengthMismatch`) on differing lengths, else adds pairwise
(`self.elements.iter().enumerate().map(|(i, x)| *x + other[i])`; under
the length guard the indexed access `other[i]` is total, which
`List.zipWith` renders). -/
def vecAdd {α : Type} [Add α] (u other : Vector α) : Except NpError (Vector α) :=
  if u.len ≠ other.len then .error (.lengthMismatch u.len other.len)
  else .ok ⟨List.zipWith (fun x y => x + y) u.elements other.elements⟩

/-- Rust `impl ops::Sub<Vector<T>> for Vector<T>`: same guard, pairwise
`*x - other[i]`. -/
def vecSub {α : Type} [Sub α] (u other : Vector α) : Except NpError (Vector α) :=
  if u.len ≠ other.len then .error (.lengthMismatch u.len other.len)
  else .ok ⟨List.zipWith (fun x y => x - y) u.elements other.elements⟩

/-- Rust `impl ops::Mul<Vector<T>> for Vector<T>`: same guard, pairwise
`*v * other[i]`. -/
def vecMul {α : Type} [Mul α] (u other : Vector α) : Except NpError (Vector α) :=
  if u.len ≠ other.len then .error (.lengthMismatch u.len other.len)
  else .ok ⟨List.zipWith (fun x y => x * y) u.elements other.elements⟩

/-- Rust `impl ops::Add<T> for Vector<T>`: `self.elements.iter().map(|x| *x + value)`. -/
def addScalar {α : Type} [Add α] (v : Vector α) (value : α) : Vector α :=
  ⟨v.elements.map (fun x => x + value)⟩

/-- Rust `impl ops::Add<Vector<$t>> for $t` (macro `impl_add_vector_for_type`):
`v.elements.iter().map(|x| *x + self)`. -/
def scalarAdd {α : Type} [Add α] (value : α) (v : Vector α) : Vector α :=
  ⟨v.elements.map (fun x => x + value)⟩

/-- Rust `impl ops::Sub<T> for Vector<T>`: `self.elements.iter().map(|x| *x - value)`. -/
def subScalar {α : Type} [Sub α] (v : Vector α) (value : α) : Vector α :=
  ⟨v.elements.map (fun x => x - value)⟩

/-- Rust `impl ops::Sub<Vector<$t>> for $t` (macro `impl_sub_vector_for_type`):
`v.elements.iter().map(|x| self - *x)` — the scalar stands on the left. -/
def scalarSub {α : Type} [Sub α] (value : α) (v : Vector α) : Vector α :=
  ⟨v.elements.map (fun x => value - x)⟩

/-- Rust `impl ops::Mul<T> for Vector<T>`: `self.elements.iter().map(|x| *x * value)`. -/
def mulScalar {α : Type} [Mul α] (v : Vector α) (value : α) : Vector α :=
  ⟨v.elements.map (fun x => x * value)⟩

/-- Rust `impl ops::Mul<Vector<$t>> for $t` (macro `impl_mul_vector_for_type`):
`v.elements.iter().map(|x| *x * self)`. -/
def scalarMul {α : Type} [Mul α] (value : α) (v : Vector α) : Vector α :=
  ⟨v.elements.map (fun x => x * value)⟩

/-- The in-place update loop shared by the three compound-assignment
impls: `for (i, x) in self.elements.iter_mut().enumerate() { *x op= other[i] }`,
walking both sequences in step.  (The leftover-left case is unreachable:
the length guard runs first.) -/
def assignLoop {α : Type} (op : α → α → α) : List α → List α → List α
  | [], _ => []
  | xs, [] => xs
  | x :: xs, y :: ys => op x y :: assignLoop op xs ys

/-- Rust `impl ops::AddAssign<Vector<T>> for Vector<T>`: length guard (panic
modelled as `NpError.lengthMismatch`), then `*x += other[i]` in place;
the returned vector is the mutated left operand. -/
def addAssign {α : Type} [Add α] (u other : Vector α) : Except NpError (Vector α) :=
  if u.len ≠ other.len then .error (.lengthMismatch u.len other.len)
  else .ok ⟨assignLoop (fun x y => x + y) u.elements other.elements⟩

/-- Rust `impl ops::SubAssign<Vector<T>> for Vector<T>`: length guard, then
`*x -= other[i]` in place. -/
def subAssign {α : Type} [Sub α] (u other : Vector α) : Except NpError (Vector α) :=
  if u.len ≠ other.len then .error (.lengthMismatch u.len other.len)
  else .ok ⟨assignLoop (fun x y => x - y) u.elements other.elements⟩

/-- Rust `impl ops::MulAssign<Vector<T>> for Vector<T>`: length guard, then
`*x *= other[i]` in place. -/
def mulAssign {α : Type} [Mul α] (u other : Vector α) : Except NpError (Vector α) :=
  if u.len ≠ other.len then .error (.lengthMismatch u.len other.len)
  else .ok ⟨assignLoop (fun x y => x * y) u.elements other.elements⟩

/-- The in-place scalar update loop of the scalar compound-assignment
impls: `for x in self.elements.iter_mut() { *x op= value }`. -/
def assignScalarLoop {α : Type} (op : α → α → α) (value : α) : List α → List α
  | [] => []
  | x :: xs => op x value :: assignScalarLoop op value xs

/-- Rust `impl ops::AddAssign<T> for Vector<T>`: `*x += value` over every slot. -/
def addAssignScalar {α : Type} [Add α] (u : Vector α) (value : α) : Vector α :=
  ⟨assignScalarLoop (fun x y => x + y) value u.elements⟩

/-- Rust `impl ops::SubAssign<T> for Vector<T>`: `*x -= value` over every slot. -/
def subAssignScalar {α : Type} [Sub α] (u : Vector α) (value : α) : Vector α :=
  ⟨assignScalarLoop (fun x y => x - y) value u.elements⟩

/-- Rust `impl ops::MulAssign<T> for Vector<T>`: `*x *= value` over every slot. -/
def mulAssignScalar {α : Type} [Mul α] (u : Vector α) (value : α) : Vector α :=
  ⟨assignScalarLoop (fun x y => x * y) value u.elements⟩

/-- Rust `impl Slice<ops::Range<usize>> for Vector<T>`:
`Vector::from(self.elements[begin..end].to_vec())`.  Rust slice indexing
panics (modelled as `NpError.outOfBounds`) unless
`begin <= end && end <= len`; otherwise it copies the sub-sequence. -/
def slice {α : Type} (v : Vector α) (begin_ end_ : Nat) : Except NpError (Vector α) :=
  if begin_ ≤ end_ ∧ end_ ≤ v.len then
    .ok ⟨(v.elements.drop begin_).take (end_ - begin_)⟩
  else .error .outOfBounds

/-- Rust `pub fn max(&self)`: `self.elements.iter().max().unwrap()` — the
iterator maximum is `none` on the empty vector (where `.unwrap()`
panics), else the running binary maximum of all elements. -/
def max {α : Type} [LinearOrder α] (v : Vector α) : Option α :=
  match v.elements with
  | [] => none
  | x :: xs => some (xs.foldl Max.max x)

/-- Rust `pub fn min(&self)`: `self.elements.iter().min().unwrap()`, dually. -/
def min {α : Type} [LinearOrder α] (v : Vector α) : Option α :=
  match v.elements with
  | [] => none
  | x :: xs => some (xs.foldl Min.min x)

end Vector

namespace Vector

/-! ## The accumulation loop of `range`/`linspace` -/

/-- The accumulation loop in closed form: for a positive step and any
sufficient fuel the loop returns exactly the values `cur + i * step`
lying strictly below `stop`, in generation order.  Since every
sufficient fuel yields the same list, this is the value computed by the
unbounded `while current_step < stop` loop of the source. -/
theorem rangeLoop_closed_form (stop step : ℚ) (hstep : 0 < step) :
    ∀ (fuel : Nat) (cur : ℚ), (⌈(stop - cur) / step⌉).toNat ≤ fuel →
      rangeLoop stop step fuel cur =
        (List.range (⌈(stop - cur) / step⌉).toNat).map
          (fun i : Nat => cur + (i : ℚ) * step) := by
  intro fuel
  induction fuel with
  | zero =>
    intro cur h
    rw [Nat.le_zero.mp h]
    rfl
  | succ fuel ih =>
    intro cur h
    by_cases hlt : cur < stop
    · have hq : 0 < (stop - cur) / step := div_pos (by linarith) hstep
      have hceil : 0 < ⌈(stop - cur) / step⌉ := Int.ceil_pos.mpr hq
      have hshift : (stop - (cur + step)) / step = (stop - cur) / step - 1 := by
        field_simp
        ring
      have hceil' : ⌈(stop - (cur + step)) / step⌉ = ⌈(stop - cur) / step⌉ - 1 := by
        rw [hshift, Int.ceil_sub_one]
      have hk : (⌈(stop - cur) / step⌉).toNat
          = (⌈(stop - (cur + step)) / step⌉).toNat + 1 := by omega
      simp only [rangeLoop, if_pos hlt]
      rw [ih (cur + step) (by omega), hk, List.range_succ_eq_map,
        List.map_cons, List.map_map]
      simp only [Nat.cast_zero, zero_mul, add_zero]
      congr 1
      apply List.map_congr_left
      intro i _
      simp only [Function.comp_apply]
      push_cast
      ring
    · have hq : (stop - cur) / step ≤ 0 :=
        div_nonpos_of_nonpos_of_nonneg (by linarith) hstep.le
      have hceil : ⌈(stop - cur) / step⌉ ≤ 0 :=
        Int.ceil_le.mpr (by exact_mod_cast hq)
      have hz : (⌈(stop - cur) / step⌉).toNat = 0 := by omega
      simp only [rangeLoop, if_neg hlt]
      rw [hz]
      rfl

/-- The explicit fuel of `range` dominates the loop's iteration count. -/
theorem rangeFuel_sufficient (start stop step : ℚ) (hstep : 0 < step) :
    (⌈(stop - start) / step⌉).toNat ≤ rangeFuel start stop step := by
  unfold rangeFuel
  set q := (stop - start) / step with hq_def
  by_cases hq : 0 < q
  · have hnum : 0 < q.num := Rat.num_pos.mpr hq
    have hden : (1 : ℚ) ≤ (q.den : ℚ) := by
      exact_mod_cast Nat.one_le_iff_ne_zero.mpr q.den_nz
    have hle : q ≤ (q.num : ℚ) := by
      calc q = (q.num : ℚ) / (q.den : ℚ) := (Rat.num_div_den q).symm
        _ ≤ (q.num : ℚ) := div_le_self (by exact_mod_cast hnum.le) hden
    have hceil : ⌈q⌉ ≤ q.num := Int.ceil_le.mpr (by exact_mod_cast hle)
    omega
  · have : ⌈q⌉ ≤ 0 := Int.ceil_le.mpr (by exact_mod_cast le_of_not_lt hq)
    omega

/-! ## Sequence builders: the claims C1, C2, C3 -/

/-- C2: for every `start < stop` and positive `step`, `range` returns
the vector `[start, start+step, start+2*step, ...]` accumulated by
repeated addition, containing exactly the accumulated values strictly
below `stop`, in generation order. -/
theorem range_spec (start stop step : ℚ) (hiv : start < stop) (hstep : 0 < step) :
    ∃ v : Vector ℚ, range start stop step = .ok v ∧ 0 < v.len ∧
      (∀ i : Nat, i < v.len → v.elements[i]? = some (start + (i : ℚ) * step)) ∧
      (∀ i : Nat, (start + (i : ℚ) * step < stop ↔ i < v.len)) := by
  have hguard : ¬ start ≥ stop := not_le.mpr hiv
  have hclosed := rangeLoop_closed_form stop step hstep (rangeFuel start stop step) start
    (rangeFuel_sufficient start stop step hstep)
  have hq : 0 < (stop - start) / step := div_pos (by linarith) hstep
  have hceil : 0 < ⌈(stop - start) / step⌉ := Int.ceil_pos.mpr hq
  refine ⟨⟨rangeLoop stop step (rangeFuel start stop step) start⟩, ?_, ?_, ?_, ?_⟩
  · simp [range, hguard]
  · simp only [len, hclosed, List.length_map, List.length_range]
    omega
  · intro i hi
    simp only [len, hclosed, List.length_map, List.length_range] at hi
    simp only [hclosed, List.getElem?_map, List.getElem?_range hi]
    rfl
  · intro i
    simp only [len, hclosed, List.length_map, List.length_range]
    have h1 : start + (i : ℚ) * step < stop ↔ ((i : ℚ)) < (stop - start) / step := by
      rw [lt_div_iff₀ hstep]
      constructor <;> intro <;> linarith
    have h2 : ((i : ℚ)) < (stop - start) / step ↔ ((i : ℤ)) < ⌈(stop - start) / step⌉ := by
      rw [Int.lt_ceil]
      push_cast
      exact Iff.rfl
    rw [h1, h2]
    omega

/-- C1: for every `len ≥ 2` and `start < stop`, `linspace` returns
exactly `len` values: the accumulated values `start + i * step` with
`step = (stop - start) / (len - 1)` for the interior, `start` first, and
the literal `stop` last (installed by the mandatory endpoint
correction). -/
theorem linspace_spec (len : Nat) (start stop : ℚ) (hlen : 2 ≤ len) (hiv : start < stop) :
    ∃ v : Vector ℚ, linspace len start stop = .ok v ∧ v.len = len ∧
      v.elements[0]? = some start ∧
      v.elements[len - 1]? = some stop ∧
      (∀ i : Nat, i < len - 1 →
        v.elements[i]? = some (start + (i : ℚ) * ((stop - start) / ((len : ℚ) - 1)))) := by
  have hguard : ¬ start ≥ stop := not_le.mpr hiv
  have hd : (0 : ℚ) < (len : ℚ) - 1 := by
    have : (2 : ℚ) ≤ (len : ℚ) := by exact_mod_cast hlen
    linarith
  have hstep : 0 < (stop - start) / ((len : ℚ) - 1) := div_pos (by linarith) hd
  have hsub : stop - start ≠ 0 := ne_of_gt (by linarith)
  have hq : (stop - start) / ((stop - start) / ((len : ℚ) - 1)) = (len : ℚ) - 1 := by
    rw [div_div_eq_mul_div, mul_comm, mul_div_assoc, div_self hsub, mul_one]
  have hceil : (⌈(stop - start) / ((stop - start) / ((len : ℚ) - 1))⌉).toNat = len - 1 := by
    rw [hq]
    have hcast : ((len : ℚ) - 1) = (((len : ℤ) - 1 : ℤ) : ℚ) := by push_cast; ring
    rw [hcast, Int.ceil_intCast]
    omega
  have hclosed := rangeLoop_closed_form stop ((stop - start) / ((len : ℚ) - 1)) hstep
    (rangeFuel start stop ((stop - start) / ((len : ℚ) - 1))) start
    (rangeFuel_sufficient start stop ((stop - start) / ((len : ℚ) - 1)) hstep)
  rw [hceil] at hclosed
  have hLlen : (rangeLoop stop ((stop - start) / ((len : ℚ) - 1))
      (rangeFuel start stop ((stop - start) / ((len : ℚ) - 1))) start).length = len - 1 := by
    rw [hclosed]
    simp
  refine ⟨⟨(rangeLoop stop ((stop - start) / ((len : ℚ) - 1))
    (rangeFuel start stop ((stop - start) / ((len : ℚ) - 1))) start) ++ [stop]⟩, ?_, ?_, ?_, ?_, ?_⟩
  · simp only [linspace, if_neg hguard]
    rw [if_neg (by omega)]
  · simp only [Vector.len, List.length_append, hLlen, List.length_singleton]
    omega
  · rw [List.getElem?_append_left (by omega), hclosed,
      List.getElem?_map, List.getElem?_range (by omega : 0 < len - 1)]
    simp
  · rw [List.getElem?_append_right (by omega), hLlen]
    have : len - 1 - (len - 1) = 0 := by omega
    rw [this]
    rfl
  · intro i hi
    rw [List.getElem?_append_left (by omega), hclosed,
      List.getElem?_map, List.getElem?_range hi]
    rfl

/-- C3: `range` and `linspace` fail with the INVALID-INTERVAL error
(and return no vector) exactly when `start ≥ stop`; for `start < stop`
neither raises that error. -/
theorem interval_guard (start stop step : ℚ) (len : Nat) :
    (start ≥ stop →
      range start stop step = .error (.invalidInterval start stop) ∧
      linspace len start stop = .error (.invalidInterval start stop)) ∧
    (start < stop →
      (∀ a b : ℚ, range start stop step ≠ .error (.invalidInterval a b)) ∧
      (∀ a b : ℚ, linspace len start stop ≠ .error (.invalidInterval a b))) := by
  constructor
  · intro h
    constructor
    · simp [range, h]
    · simp [linspace, h]
  · intro h
    have hguard : ¬ start ≥ stop := not_le.mpr h
    constructor
    · intro a b
      simp [range, hguard]
    · intro a b
      simp only [linspace, if_neg hguard]
      split <;> simp

/-- Witness for C1 at `linspace(5, 1.0, 10.0)`, including the literal
result `[1.0, 3.25, 5.5, 7.75, 10.0]`. -/
theorem linspace_spec_witness :
    (∃ v : Vector ℚ, linspace 5 1 10 = .ok v ∧ v.len = 5 ∧
      v.elements[0]? = some 1 ∧
      v.elements[5 - 1]? = some 10 ∧
      (∀ i : Nat, i < 5 - 1 →
        v.elements[i]? = some (1 + (i : ℚ) * ((10 - 1) / ((5 : ℚ) - 1))))) ∧
    linspace 5 1 10 = .ok ⟨[1, 3.25, 5.5, 7.75, 10]⟩ :=
  ⟨linspace_spec 5 1 10 (by norm_num) (by norm_num), by with_unfolding_all decide⟩

/-- Witness for C2 at `range(0, 5, 1)` and `range(1.0, 3.0, 0.5)`,
including the literal results. -/
theorem range_spec_witness :
    (∃ v : Vector ℚ, range 0 5 1 = .ok v ∧ 0 < v.len ∧
      (∀ i : Nat, i < v.len → v.elements[i]? = some (0 + (i : ℚ) * 1)) ∧
      (∀ i : Nat, (0 + (i : ℚ) * 1 < 5 ↔ i < v.len))) ∧
    range 0 5 1 = .ok ⟨[0, 1, 2, 3, 4]⟩ ∧
    range 1 3 (1 / 2) = .ok ⟨[1, 3 / 2, 2, 5 / 2]⟩ :=
  ⟨range_spec 0 5 1 (by norm_num) (by norm_num),
   by with_unfolding_all decide, by with_unfolding_all decide⟩

/-- Witness for C3 at `range(5, 3, 1)`, `linspace(4, 5.0, 3.0)` (both
invalid) and `range(1, 3, 1)` (valid). -/
theorem interval_guard_witness :
    range 5 3 1 = .error (.invalidInterval 5 3) ∧
    linspace 4 5 3 = .error (.invalidInterval 5 3) ∧
    (∀ a b : ℚ, range 1 3 1 ≠ .error (.invalidInterval a b)) ∧
    (∀ a b : ℚ, linspace 4 1 3 ≠ .error (.invalidInterval a b)) :=
  ⟨((interval_guard 5 3 1 4).1 (by norm_num)).1,
   ((interval_guard 5 3 1 4).1 (by norm_num)).2,
   ((interval_guard 1 3 1 4).2 (by norm_num)).1,
   ((interval_guard 1 3 1 4).2 (by norm_num)).2⟩

/-! ## Elementwise operators: the claims C4, C5, C6, C7 -/

/-- The in-place update loop agrees with the pairwise combination when
the operands have equal length. -/
theorem assignLoop_eq_zipWith {α : Type} (op : α → α → α) :
    ∀ (xs ys : List α), xs.length = ys.length →
      assignLoop op xs ys = List.zipWith op xs ys := by
  intro xs
  induction xs with
  | nil =>
    intro ys h
    cases ys <;> rfl
  | cons x xs ih =>
    intro ys h
    cases ys with
    | nil => simp at h
    | cons y ys =>
      simp only [List.length_cons, Nat.succ.injEq] at h
      simp only [assignLoop, List.zipWith_cons_cons, ih ys h]

/-- The in-place scalar update loop is the elementwise map. -/
theorem assignScalarLoop_eq_map {α : Type} (op : α → α → α) (value : α) :
    ∀ xs : List α, assignScalarLoop op value xs = xs.map (fun x => op x value) := by
  intro xs
  induction xs with
  | nil => rfl
  | cons x xs ih => simp only [assignScalarLoop, List.map_cons, ih]

/-- C4: on operands of differing lengths every vector-vector operator
and every vector-vector compound assignment fails with the
LENGTH-MISMATCH error carrying both operand lengths (the compound form
failing identically to its counterpart, no partial result being
returned), while the six vector-scalar forms are total and
length-preserving — they have no failure mode. -/
theorem mismatch_spec {α : Type} [Add α] [Sub α] [Mul α] (u v : Vector α)
    (h : u.len ≠ v.len) :
    vecAdd u v = .error (.lengthMismatch u.len v.len) ∧
    vecSub u v = .error (.lengthMismatch u.len v.len) ∧
    vecMul u v = .error (.lengthMismatch u.len v.len) ∧
    addAssign u v = .error (.lengthMismatch u.len v.len) ∧
    subAssign u v = .error (.lengthMismatch u.len v.len) ∧
    mulAssign u v = .error (.lengthMismatch u.len v.len) ∧
    (∀ s : α,
      (addScalar u s).len = u.len ∧ (subScalar u s).len = u.len ∧
      (mulScalar u s).len = u.len ∧ (addAssignScalar u s).len = u.len ∧
      (subAssignScalar u s).len = u.len ∧ (mulAssignScalar u s).len = u.len) := by
  refine ⟨?_, ?_, ?_, ?_, ?_, ?_, ?_⟩
  · simp [vecAdd, h]
  · simp [vecSub, h]
  · simp [vecMul, h]
  · simp [addAssign, h]
  · simp [subAssign, h]
  · simp [mulAssign, h]
  · intro s
    refine ⟨?_, ?_, ?_, ?_, ?_, ?_⟩ <;>
      simp [addScalar, subScalar, mulScalar, addAssignScalar, subAssignScalar,
        mulAssignScalar, assignScalarLoop_eq_map, len]

/-- C5: on equal-length operands the three vector-vector operators
return a new vector of the same length combining the operands pairwise
with the scalar operator (the operands themselves are values and stay
untouched). -/
theorem elementwise_spec {α : Type} [Add α] [Sub α] [Mul α] (u v : Vector α)
    (h : u.len = v.len) :
    ∃ a b c : Vector α,
      vecAdd u v = .ok a ∧ vecSub u v = .ok b ∧ vecMul u v = .ok c ∧
      a.len = u.len ∧ b.len = u.len ∧ c.len = u.len ∧
      (∀ (i : Nat) (x y : α), u.elements[i]? = some x → v.elements[i]? = some y →
        a.elements[i]? = some (x + y) ∧
        b.elements[i]? = some (x - y) ∧
        c.elements[i]? = some (x * y)) := by
  have hlen : ∀ (f : α → α → α),
      (List.zipWith f u.elements v.elements).length = u.len := by
    intro f
    simp only [List.length_zipWith]
    simp only [len] at h ⊢
    omega
  refine ⟨⟨List.zipWith (fun x y => x + y) u.elements v.elements⟩,
    ⟨List.zipWith (fun x y => x - y) u.elements v.elements⟩,
    ⟨List.zipWith (fun x y => x * y) u.elements v.elements⟩,
    ?_, ?_, ?_, hlen _, hlen _, hlen _, ?_⟩
  · simp [vecAdd, h]
  · simp [vecSub, h]
  · simp [vecMul, h]
  · intro i x y hx hy
    refine ⟨?_, ?_, ?_⟩ <;> rw [List.getElem?_zipWith', hx, hy] <;> rfl

/-- C6: the scalar-broadcast operators preserve the length and apply
the scalar at every index, with left-scalar subtraction oriented as
`scalar - element` and left-scalar addition/multiplication agreeing
with their right-scalar forms. -/
theorem broadcast_spec {α : Type} [Add α] [Sub α] [Mul α] (v : Vector α) (s : α) :
    (addScalar v s).len = v.len ∧ (scalarAdd s v).len = v.len ∧
    (subScalar v s).len = v.len ∧ (scalarSub s v).len = v.len ∧
    (mulScalar v s).len = v.len ∧ (scalarMul s v).len = v.len ∧
    (∀ (i : Nat) (x : α), v.elements[i]? = some x →
      (addScalar v s).elements[i]? = some (x + s) ∧
      (scalarAdd s v).elements[i]? = some (x + s) ∧
      (subScalar v s).elements[i]? = some (x - s) ∧
      (scalarSub s v).elements[i]? = some (s - x) ∧
      (mulScalar v s).elements[i]? = some (x * s) ∧
      (scalarMul s v).elements[i]? = some (x * s)) := by
  refine ⟨?_, ?_, ?_, ?_, ?_, ?_, ?_⟩
  · simp [addScalar, len]
  · simp [scalarAdd, len]
  · simp [subScalar, len]
  · simp [scalarSub, len]
  · simp [mulScalar, len]
  · simp [scalarMul, len]
  · intro i x hx
    refine ⟨?_, ?_, ?_, ?_, ?_, ?_⟩ <;>
      simp only [addScalar, scalarAdd, subScalar, scalarSub, mulScalar, scalarMul,
        List.getElem?_map, hx] <;> rfl

/-- C7: every compound assignment leaves the mutated left operand equal
to the result the corresponding non-assignment operator produces from
the old left operand and the right operand — both for an equal-length
vector operand and for a scalar operand. -/
theorem assign_spec {α : Type} [Add α] [Sub α] [Mul α] (u v : Vector α)
    (h : u.len = v.len) :
    addAssign u v = vecAdd u v ∧
    subAssign u v = vecSub u v ∧
    mulAssign u v = vecMul u v ∧
    (∀ s : α, addAssignScalar u s = addScalar u s ∧
      subAssignScalar u s = subScalar u s ∧
      mulAssignScalar u s = mulScalar u s) := by
  have hlen : u.elements.length = v.elements.length := h
  refine ⟨?_, ?_, ?_, ?_⟩
  · simp only [addAssign, vecAdd, assignLoop_eq_zipWith _ _ _ hlen]
  · simp only [subAssign, vecSub, assignLoop_eq_zipWith _ _ _ hlen]
  · simp only [mulAssign, vecMul, assignLoop_eq_zipWith _ _ _ hlen]
  · intro s
    refine ⟨?_, ?_, ?_⟩ <;>
      simp only [addAssignScalar, subAssignScalar, mulAssignScalar,
        addScalar, subScalar, mulScalar, assignScalarLoop_eq_map]

/-- Witness for C4 at the spec's failing example
`[3,1,4,1,5] + [3,1,4,1]` (over `ℤ`). -/
theorem mismatch_spec_witness :
    vecAdd (⟨[3, 1, 4, 1, 5]⟩ : Vector ℤ) ⟨[3, 1, 4, 1]⟩
      = .error (.lengthMismatch 5 4) ∧
    mulAssign (⟨[3, 1, 4, 1, 5]⟩ : Vector ℤ) ⟨[3, 1, 4, 1]⟩
      = .error (.lengthMismatch 5 4) := by
  have h := mismatch_spec (⟨[3, 1, 4, 1, 5]⟩ : Vector ℤ) ⟨[3, 1, 4, 1]⟩ (by decide)
  exact ⟨h.1, h.2.2.2.2.2.1⟩

/-- Witness for C5 at `[3,1,4,1,5]` op `[3,1,4,1,5]` (over `ℤ`),
including the literal sums and products of the source's tests. -/
theorem elementwise_spec_witness :
    (∃ a b c : Vector ℤ,
      vecAdd (⟨[3, 1, 4, 1, 5]⟩ : Vector ℤ) ⟨[3, 1, 4, 1, 5]⟩ = .ok a ∧
      vecSub (⟨[3, 1, 4, 1, 5]⟩ : Vector ℤ) ⟨[3, 1, 4, 1, 5]⟩ = .ok b ∧
      vecMul (⟨[3, 1, 4, 1, 5]⟩ : Vector ℤ) ⟨[3, 1, 4, 1, 5]⟩ = .ok c ∧
      a.len = 5 ∧ b.len = 5 ∧ c.len = 5 ∧
      (∀ (i : Nat) (x y : ℤ),
        ([3, 1, 4, 1, 5] : List ℤ)[i]? = some x →
        ([3, 1, 4, 1, 5] : List ℤ)[i]? = some y →
        a.elements[i]? = some (x + y) ∧
        b.elements[i]? = some (x - y) ∧
        c.elements[i]? = some (x * y))) ∧
    vecAdd (⟨[3, 1, 4, 1, 5]⟩ : Vector ℤ) ⟨[3, 1, 4, 1, 5]⟩ = .ok ⟨[6, 2, 8, 2, 10]⟩ ∧
    vecMul (⟨[3, 1, 4, 1, 5]⟩ : Vector ℤ) ⟨[3, 1, 4, 1, 5]⟩ = .ok ⟨[9, 1, 16, 1, 25]⟩ :=
  ⟨elementwise_spec (⟨[3, 1, 4, 1, 5]⟩ : Vector ℤ) ⟨[3, 1, 4, 1, 5]⟩ rfl,
   by decide, by decide⟩

/-- Witness for C6 at `v = [5,5,5,5]`, `s = 6` (over `ℤ`), including
the literal broadcast results `6 - v = [1,1,1,1]` and
`v + 6 = 6 + v = [11,11,11,11]`. -/
theorem broadcast_spec_witness :
    ((addScalar (⟨[5, 5, 5, 5]⟩ : Vector ℤ) 6).len = 4 ∧
     (scalarAdd (6 : ℤ) ⟨[5, 5, 5, 5]⟩).len = 4 ∧
     (subScalar (⟨[5, 5, 5, 5]⟩ : Vector ℤ) 6).len = 4 ∧
     (scalarSub (6 : ℤ) ⟨[5, 5, 5, 5]⟩).len = 4 ∧
     (mulScalar (⟨[5, 5, 5, 5]⟩ : Vector ℤ) 6).len = 4 ∧
     (scalarMul (6 : ℤ) ⟨[5, 5, 5, 5]⟩).len = 4 ∧
     (∀ (i : Nat) (x : ℤ), ([5, 5, 5, 5] : List ℤ)[i]? = some x →
       (addScalar (⟨[5, 5, 5, 5]⟩ : Vector ℤ) 6).elements[i]? = some (x + 6) ∧
       (scalarAdd (6 : ℤ) ⟨[5, 5, 5, 5]⟩).elements[i]? = some (x + 6) ∧
       (subScalar (⟨[5, 5, 5, 5]⟩ : Vector ℤ) 6).elements[i]? = some (x - 6) ∧
       (scalarSub (6 : ℤ) ⟨[5, 5, 5, 5]⟩).elements[i]? = some (6 - x) ∧
       (mulScalar (⟨[5, 5, 5, 5]⟩ : Vector ℤ) 6).elements[i]? = some (x * 6) ∧
       (scalarMul (6 : ℤ) ⟨[5, 5, 5, 5]⟩).elements[i]? = some (x * 6))) ∧
    scalarSub (6 : ℤ) ⟨[5, 5, 5, 5]⟩ = ⟨[1, 1, 1, 1]⟩ ∧
    addScalar (⟨[5, 5, 5, 5]⟩ : Vector ℤ) 6 = ⟨[11, 11, 11, 11]⟩ ∧
    scalarAdd (6 : ℤ) ⟨[5, 5, 5, 5]⟩ = ⟨[11, 11, 11, 11]⟩ :=
  ⟨broadcast_spec (⟨[5, 5, 5, 5]⟩ : Vector ℤ) 6, by decide, by decide, by decide⟩

/-- Witness for C7 at `[3,1,4,1,5] op= [3,1,4,1,5]` (over `ℤ`). -/
theorem assign_spec_witness :
    addAssign (⟨[3, 1, 4, 1, 5]⟩ : Vector ℤ) ⟨[3, 1, 4, 1, 5]⟩
      = vecAdd ⟨[3, 1, 4, 1, 5]⟩ ⟨[3, 1, 4, 1, 5]⟩ ∧
    subAssign (⟨[3, 1, 4, 1, 5]⟩ : Vector ℤ) ⟨[3, 1, 4, 1, 5]⟩
      = vecSub ⟨[3, 1, 4, 1, 5]⟩ ⟨[3, 1, 4, 1, 5]⟩ ∧
    mulAssign (⟨[3, 1, 4, 1, 5]⟩ : Vector ℤ) ⟨[3, 1, 4, 1, 5]⟩
      = vecMul ⟨[3, 1, 4, 1, 5]⟩ ⟨[3, 1, 4, 1, 5]⟩ ∧
    mulAssignScalar (⟨[3, 1, 4, 1, 5]⟩ : Vector ℤ) 2
      = mulScalar ⟨[3, 1, 4, 1, 5]⟩ 2 := by
  have h := assign_spec (⟨[3, 1, 4, 1, 5]⟩ : Vector ℤ) ⟨[3, 1, 4, 1, 5]⟩ rfl
  exact ⟨h.1, h.2.1, h.2.2.1, (h.2.2.2 2).2.2⟩

/-! ## Slicing, fill builders, reductions: the claims C8, C9, C10 -/

/-- C8: with resolved bounds `begin ≤ end ≤ length` the slice is a new
vector copying `[v[begin], ..., v[end-1]]` in order; the full range
`0..length()` reproduces the vector; violated bounds fail with the
OUT-OF-BOUNDS error. -/
theorem slice_spec {α : Type} (v : Vector α) (begin_ end_ : Nat) :
    (begin_ ≤ end_ → end_ ≤ v.len →
      ∃ w : Vector α, slice v begin_ end_ = .ok w ∧ w.len = end_ - begin_ ∧
        (∀ i : Nat, i < end_ - begin_ → w.elements[i]? = v.elements[begin_ + i]?)) ∧
    slice v 0 v.len = .ok v ∧
    (¬(begin_ ≤ end_ ∧ end_ ≤ v.len) → slice v begin_ end_ = .error .outOfBounds) := by
  refine ⟨?_, ?_, ?_⟩
  · intro h1 h2
    refine ⟨⟨(v.elements.drop begin_).take (end_ - begin_)⟩, ?_, ?_, ?_⟩
    · simp [slice, h1, h2]
    · simp only [len] at h2 ⊢
      simp only [List.length_take, List.length_drop]
      omega
    · intro i hi
      rw [List.getElem?_take_of_lt hi, List.getElem?_drop]
  · have h : (0 ≤ v.len ∧ v.len ≤ v.len) := ⟨Nat.zero_le _, le_refl _⟩
    simp only [slice, if_pos h, List.drop_zero, Nat.sub_zero]
    show Except.ok ⟨List.take v.elements.length v.elements⟩ = Except.ok v
    rw [List.take_length]
  · intro h
    simp only [slice, if_neg h]

/-- Every slot of a replicated list holds the replicated value. -/
theorem getElem?_replicate_of_lt {α : Type} (value : α) :
    ∀ (n i : Nat), i < n → (List.replicate n value)[i]? = some value := by
  intro n
  induction n with
  | zero =>
    intro i hi
    omega
  | succ n ih =>
    intro i hi
    cases i with
    | zero => simp [List.replicate_succ]
    | succ i =>
      simp only [List.replicate_succ, List.getElem?_cons_succ]
      exact ih i (by omega)

/-- C9: `full` builds a vector of exactly the requested length, every
element the requested value (length 0 giving the empty vector), and
`zeros`/`ones` are `full` at the element type's 0 and 1. -/
theorem fill_spec {α : Type} [Zero α] [One α] (len : Nat) (value : α) :
    (full len value).len = len ∧
    (∀ i : Nat, i < len → (full len value).elements[i]? = some value) ∧
    full 0 value = (⟨[]⟩ : Vector α) ∧
    (zeros len : Vector α).len = len ∧
    (∀ i : Nat, i < len → (zeros len : Vector α).elements[i]? = some (0 : α)) ∧
    (ones len : Vector α).len = len ∧
    (∀ i : Nat, i < len → (ones len : Vector α).elements[i]? = some (1 : α)) := by
  refine ⟨?_, ?_, rfl, ?_, ?_, ?_, ?_⟩
  · simp [full, Vector.len]
  · intro i hi
    exact getElem?_replicate_of_lt value len i hi
  · simp [zeros, full, Vector.len]
  · intro i hi
    exact getElem?_replicate_of_lt (0 : α) len i hi
  · simp [ones, full, Vector.len]
  · intro i hi
    exact getElem?_replicate_of_lt (1 : α) len i hi

/-- The running binary maximum of a fold is one of the folded values. -/
theorem foldl_max_mem {α : Type} [LinearOrder α] :
    ∀ (l : List α) (x : α), l.foldl Max.max x ∈ x :: l := by
  intro l
  induction l with
  | nil =>
    intro x
    exact List.mem_singleton.mpr rfl
  | cons a l ih =>
    intro x
    have h := ih (Max.max x a)
    rcases List.mem_cons.mp h with h0 | h0
    · rcases max_choice x a with hm | hm
      · rw [List.foldl_cons, h0, hm]
        exact List.mem_cons_self _ _
      · rw [List.foldl_cons, h0, hm]
        exact List.mem_cons_of_mem _ (List.mem_cons_self _ _)
    · rw [List.foldl_cons]
      exact List.mem_cons_of_mem _ (List.mem_cons_of_mem _ h0)

/-- The running binary maximum of a fold dominates every folded value. -/
theorem le_foldl_max {α : Type} [LinearOrder α] :
    ∀ (l : List α) (x y : α), y ∈ x :: l → y ≤ l.foldl Max.max x := by
  intro l
  induction l with
  | nil =>
    intro x y hy
    rw [List.mem_singleton.mp hy]
    exact le_refl x
  | cons a l ih =>
    intro x y hy
    have hhead : Max.max x a ≤ l.foldl Max.max (Max.max x a) :=
      ih (Max.max x a) (Max.max x a) (List.mem_cons_self _ _)
    rw [List.foldl_cons]
    rcases List.mem_cons.mp hy with rfl | h0
    · exact le_trans (le_max_left y a) hhead
    · rcases List.mem_cons.mp h0 with rfl | h1
      · exact le_trans (le_max_right x y) hhead
      · exact ih (Max.max x a) y (List.mem_cons_of_mem _ h1)

/-- The running binary minimum of a fold is one of the folded values. -/
theorem foldl_min_mem {α : Type} [LinearOrder α] :
    ∀ (l : List α) (x : α), l.foldl Min.min x ∈ x :: l := by
  intro l
  induction l with
  | nil =>
    intro x
    exact List.mem_singleton.mpr rfl
  | cons a l ih =>
    intro x
    have h := ih (Min.min x a)
    rcases List.mem_cons.mp h with h0 | h0
    · rcases min_choice x a with hm | hm
      · rw [List.foldl_cons, h0, hm]
        exact List.mem_cons_self _ _
      · rw [List.foldl_cons, h0, hm]
        exact List.mem_cons_of_mem _ (List.mem_cons_self _ _)
    · rw [List.foldl_cons]
      exact List.mem_cons_of_mem _ (List.mem_cons_of_mem _ h0)

/-- The running binary minimum of a fold lies below every folded value. -/
theorem foldl_min_le {α : Type} [LinearOrder α] :
    ∀ (l : List α) (x y : α), y ∈ x :: l → l.foldl Min.min x ≤ y := by
  intro l
  induction l with
  | nil =>
    intro x y hy
    rw [List.mem_singleton.mp hy]
    exact le_refl x
  | cons a l ih =>
    intro x y hy
    have hhead : l.foldl Min.min (Min.min x a) ≤ Min.min x a :=
      ih (Min.min x a) (Min.min x a) (List.mem_cons_self _ _)
    rw [List.foldl_cons]
    rcases List.mem_cons.mp hy with rfl | h0
    · exact le_trans hhead (min_le_left y a)
    · rcases List.mem_cons.mp h0 with rfl | h1
      · exact le_trans hhead (min_le_right x y)
      · exact ih (Min.min x a) y (List.mem_cons_of_mem _ h1)

/-- C10: on a non-empty vector `max` returns an element dominating
every element and `min` an element below every element; on the empty
vector the iterator yields nothing and the `unwrap` panics (modelled as
`none`). -/
theorem max_min_spec {α : Type} [LinearOrder α] (v : Vector α) :
    (v.elements ≠ [] →
      ∃ m, Vector.max v = some m ∧ m ∈ v.elements ∧ ∀ x ∈ v.elements, x ≤ m) ∧
    (v.elements ≠ [] →
      ∃ m, Vector.min v = some m ∧ m ∈ v.elements ∧ ∀ x ∈ v.elements, m ≤ x) ∧
    (v.elements = [] → Vector.max v = none ∧ Vector.min v = none) := by
  obtain ⟨elems⟩ := v
  cases elems with
  | nil =>
    refine ⟨?_, ?_, ?_⟩
    · intro h
      exact absurd rfl h
    · intro h
      exact absurd rfl h
    · intro _
      exact ⟨rfl, rfl⟩
  | cons x xs =>
    refine ⟨?_, ?_, ?_⟩
    · intro _
      exact ⟨xs.foldl Max.max x, rfl, foldl_max_mem xs x,
        fun y hy => le_foldl_max xs x y hy⟩
    · intro _
      exact ⟨xs.foldl Min.min x, rfl, foldl_min_mem xs x,
        fun y hy => foldl_min_le xs x y hy⟩
    · intro h
      exact absurd h (List.cons_ne_nil x xs)

/-- Witness for C8 at `slice([3,1,2,3], 1..3)` (ok) and
`slice([3,1,2,3], 1..100)` (out of bounds), over `ℤ`. -/
theorem slice_spec_witness :
    (∃ w : Vector ℤ, slice (⟨[3, 1, 2, 3]⟩ : Vector ℤ) 1 3 = .ok w ∧ w.len = 3 - 1 ∧
      (∀ i : Nat, i < 3 - 1 →
        w.elements[i]? = ([3, 1, 2, 3] : List ℤ)[1 + i]?)) ∧
    slice (⟨[3, 1, 2, 3]⟩ : Vector ℤ) 1 3 = .ok ⟨[1, 2]⟩ ∧
    slice (⟨[3, 1, 2, 3]⟩ : Vector ℤ) 0 4 = .ok ⟨[3, 1, 2, 3]⟩ ∧
    slice (⟨[3, 1, 2, 3]⟩ : Vector ℤ) 1 100 = .error .outOfBounds :=
  ⟨(slice_spec (⟨[3, 1, 2, 3]⟩ : Vector ℤ) 1 3).1 (by decide) (by decide),
   by decide, by decide,
   (slice_spec (⟨[3, 1, 2, 3]⟩ : Vector ℤ) 1 100).2.2 (by decide)⟩

/-- Witness for C9 at `full(5, 2)`, `zeros(5)`, `ones(5)` over `ℤ`,
including the literal results. -/
theorem fill_spec_witness :
    ((full 5 (2 : ℤ)).len = 5 ∧
     (∀ i : Nat, i < 5 → (full 5 (2 : ℤ)).elements[i]? = some 2) ∧
     full 0 (2 : ℤ) = (⟨[]⟩ : Vector ℤ) ∧
     (zeros 5 : Vector ℤ).len = 5 ∧
     (∀ i : Nat, i < 5 → (zeros 5 : Vector ℤ).elements[i]? = some (0 : ℤ)) ∧
     (ones 5 : Vector ℤ).len = 5 ∧
     (∀ i : Nat, i < 5 → (ones 5 : Vector ℤ).elements[i]? = some (1 : ℤ))) ∧
    full 5 (2 : ℤ) = ⟨[2, 2, 2, 2, 2]⟩ ∧
    (zeros 5 : Vector ℤ) = ⟨[0, 0, 0, 0, 0]⟩ ∧
    (ones 5 : Vector ℤ) = ⟨[1, 1, 1, 1, 1]⟩ :=
  ⟨fill_spec 5 (2 : ℤ), by decide, by decide, by decide⟩

/-- Witness for C10 at `[3,1,4,1]` (max 4, min 1) and the empty vector,
over `ℤ`. -/
theorem max_min_spec_witness :
    (∃ m, Vector.max (⟨[3, 1, 4, 1]⟩ : Vector ℤ) = some m ∧
      m ∈ ([3, 1, 4, 1] : List ℤ) ∧ ∀ x ∈ ([3, 1, 4, 1] : List ℤ), x ≤ m) ∧
    (∃ m, Vector.min (⟨[3, 1, 4, 1]⟩ : Vector ℤ) = some m ∧
      m ∈ ([3, 1, 4, 1] : List ℤ) ∧ ∀ x ∈ ([3, 1, 4, 1] : List ℤ), m ≤ x) ∧
    Vector.max (⟨[3, 1, 4, 1]⟩ : Vector ℤ) = some 4 ∧
    Vector.min (⟨[3, 1, 4, 1]⟩ : Vector ℤ) = some 1 ∧
    (Vector.max (⟨[]⟩ : Vector ℤ) = none ∧ Vector.min (⟨[]⟩ : Vector ℤ) = none) :=
  ⟨(max_min_spec (⟨[3, 1, 4, 1]⟩ : Vector ℤ)).1 (by decide),
   (max_min_spec (⟨[3, 1, 4, 1]⟩ : Vector ℤ)).2.1 (by decide),
   by decide, by decide,
   (max_min_spec (⟨[]⟩ : Vector ℤ)).2.2 rfl⟩

end Vector

end Crabsformer
